import Mathlib

/-!
Verification of the request-dispatch core of the thinkgo web framework
(`core/echo.go`): middleware composition and registration, the dispatch
pipeline `ServeHTTP`, the default HTTP error handler, path normalization,
context pooling, and group creation.

Shallow embedding conventions:
* Effectful Go functions become explicit state passing on the structures below.
* `HandlerFunc = func(*Context) error` becomes `ContextM → ContextM × Option ErrM`.
* Go's `error` interface is embedded as `ErrM`: either a `*HTTPError`
  (status code + message) or any other error carrying its `Error()` text.
* Code of the repository that is not among the given sources
  (`context.go`, `router.go`, `group.go`, `response.go`) is either taken as an
  abstract parameter (`Router.Find`) or modelled from the spec, as marked.
-/

/-- Embeds the slice of `*http.Request` the dispatch core reads: `r.Method`
and `r.URL.Path`. -/
structure Request where
  method : String
  path : String
deriving DecidableEq

/-- Embeds the echo `Response` (response.go is not among the sources).
Modelled from the spec: the response "tracks a 'committed' flag once headers
are written"; `status` and `body` record what was written.  `body` is the
list of chunks written, in order. -/
structure Response where
  committed : Bool
  status : Nat
  body : List String
deriving DecidableEq

/-- Embeds the slice of `Context` (context.go is not among the sources) the
claims need.  Modelled from the spec §3: inbound request, outbound response
(with committed flag), captured parameter values.  The `echo` back-reference
is not stored, since no claim observes it. -/
structure ContextM where
  request : Request
  response : Response
  pvalues : List String
deriving DecidableEq

/-- Embeds Go's `error` values as the dispatch core distinguishes them:
`*HTTPError{code, message}` (echo.go lines 52-55) versus any other error,
of which only the `Error()` text is observable. -/
inductive ErrM where
  | httpError (code : Nat) (message : String)
  | generic (text : String)
deriving DecidableEq

/-- `HTTPError.Error()` returns the stored message (echo.go lines 677-680);
for any other error this is its `Error()` text. -/
def ErrM.errorText : ErrM → String
  | .httpError _ m => m
  | .generic t => t

/-- `HandlerFunc = func(*Context) error` (echo.go line 60), state-passing. -/
abbrev HandlerF := ContextM → ContextM × Option ErrM

/-- `MiddlewareFunc = func(HandlerFunc) HandlerFunc` (echo.go line 58). -/
abbrev MiddlewareF := HandlerF → HandlerF

/-- An `http.Handler` / `func(http.ResponseWriter, *http.Request)`: it reads
the request and transforms the response it writes to. -/
abbrev HttpHandlerF := Request → Response → Response

/-- State threaded through the `func(http.Handler) http.Handler` middleware
adapter: the Go closure (echo.go lines 694-702) captures the context and an
`err` variable; the embedding threads both explicitly. -/
abbrev HState := ContextM × Option ErrM

/-- A `func(http.Handler) http.Handler` middleware, after the closure
plumbing of echo.go lines 694-702: a transformer of context+error state. -/
abbrev HttpMWF := (HState → HState) → HState → HState

/-- `e.hook` is an `http.HandlerFunc` run first in `ServeHTTP` (lines
585-587); through its pointers it may mutate both response and request. -/
abbrev HookF := Response → Request → Response × Request

/-- `HTTPErrorHandler = func(error, *Context)` (echo.go line 63); the second
component records the errors it logs. -/
abbrev ErrHandlerF := ErrM → ContextM → ContextM × List ErrM

/-- Embeds `net/http`'s `StatusText` for the codes this code touches;
unknown codes map to the empty string, as in Go. -/
def statusText (code : Nat) : String :=
  if code = 101 then "Switching Protocols"
  else if code = 200 then "OK"
  else if code = 403 then "Forbidden"
  else if code = 404 then "Not Found"
  else if code = 405 then "Method Not Allowed"
  else if code = 500 then "Internal Server Error"
  else ""

/-- Embeds `NewHTTPError` (echo.go lines 658-665): the message defaults to
`http.StatusText(code)` and the first variadic argument overrides it. -/
def NewHTTPError (code : Nat) (msg : List String) : ErrM :=
  ErrM.httpError code (match msg with
    | [] => statusText code
    | m :: _ => m)

/-- The dynamic shapes accepted by `wrapMiddleware` (echo.go lines 683-711),
in the order of the Go type switch; `unknown` stands for every other
dynamic type, which the Go code answers with `panic("unknown middleware")`. -/
inductive Middleware where
  | middlewareFunc (f : MiddlewareF)
  | funcHandlerToHandler (f : MiddlewareF)
  | handlerFunc (f : HandlerF)
  | funcCtxErr (f : HandlerF)
  | httpMiddleware (f : HttpMWF)
  | httpHandler (f : HttpHandlerF)
  | httpHandlerFunc (f : HttpHandlerF)
  | unknown

/-- The dynamic shapes accepted by `wrapHandler` (echo.go lines 738-757);
`httpHandler` and `httpHandlerFunc` are the two types of the combined Go
case `case http.Handler, http.HandlerFunc:`; `unknown` is every other
dynamic type, which the Go code answers with `panic("unknown handler")`. -/
inductive Handler where
  | handlerFunc (f : HandlerF)
  | funcCtxErr (f : HandlerF)
  | httpHandler (f : HttpHandlerF)
  | httpHandlerFunc (f : HttpHandlerF)
  | funcWR (f : HttpHandlerF)
  | unknown

/-- Embeds `wrapHandlerFuncMW` (echo.go lines 714-723):
`if err := m(c); err != nil { return err }; return next(c)`. -/
def wrapHandlerFuncMW (m : HandlerF) : MiddlewareF :=
  fun next c =>
    match m c with
    | (c', some err) => (c', some err)
    | (c', none) => next c'

/-- Embeds `wrapHTTPHandlerFuncMW` (echo.go lines 726-735): run the http
handler on the context's response only if not yet committed, then always
invoke `next` on the (possibly mutated) context. -/
def wrapHTTPHandlerFuncMW (m : HttpHandlerF) : MiddlewareF :=
  fun next c =>
    next (if c.response.committed = false
          then { c with response := m c.request c.response } else c)

/-- Embeds `wrapMiddleware` (echo.go lines 683-711).  `none` models the
`default: panic("unknown middleware")` arm: registration fails fast.  In the
`httpMiddleware` case the Go closure captures the context and an `err`
variable initially nil; the inner `http.Handler` adapter runs the wrapped
echo handler and records its error — here threaded as explicit state. -/
def wrapMiddleware : Middleware → Option MiddlewareF
  | .middlewareFunc m => some m
  | .funcHandlerToHandler m => some m
  | .handlerFunc m => some (wrapHandlerFuncMW m)
  | .funcCtxErr m => some (wrapHandlerFuncMW m)
  | .httpMiddleware m => some (fun h c => m (fun st => h st.1) (c, none))
  | .httpHandler m => some (wrapHTTPHandlerFuncMW m)
  | .httpHandlerFunc m => some (wrapHTTPHandlerFuncMW m)
  | .unknown => none

/-- Embeds `wrapHandler` (echo.go lines 738-757).  `none` models the
`default: panic("unknown handler")` arm.  The http-shaped cases call
`ServeHTTP(c.response, c.request)` and return nil. -/
def wrapHandler : Handler → Option HandlerF
  | .handlerFunc h => some h
  | .funcCtxErr h => some h
  | .httpHandler h => some (fun c => ({ c with response := h c.request c.response }, none))
  | .httpHandlerFunc h => some (fun c => ({ c with response := h c.request c.response }, none))
  | .funcWR h => some (fun c => ({ c with response := h c.request c.response }, none))
  | .unknown => none

/-- Models `http.Error(w, error, code)` together with the echo response's
`WriteHeader` (response.go is not among the sources; modelled from the spec:
the committed flag is set "once headers are written"): write the status
code, append the message plus newline, mark committed. -/
def httpErrorWrite (w : Response) (msg : String) (code : Nat) : Response :=
  { committed := true, status := code, body := w.body ++ [msg ++ "\n"] }

/-- Embeds the `defaultHTTPErrorHandler` closure created by `New` (echo.go
lines 216-230).  The closure reads `e.debug` at call time, here a parameter;
`e.logger.Error(err)` is recorded in the returned log list. -/
def defaultHTTPErrorHandler (debug : Bool) : ErrHandlerF := fun err c =>
  let code := 500
  let msg := statusText code
  let cm : Nat × String :=
    match err with
    | ErrM.httpError hc hm => (hc, hm)
    | _ => (code, msg)
  let msg := if debug then err.errorText else cm.2
  let c :=
    if c.response.committed = false
    then { c with response := httpErrorWrite c.response msg cm.1 } else c
  (c, [err])

/-- The slice of `Echo` (echo.go lines 25-44) the claims need.  `pfx` embeds
the Go field `prefix` (renamed: `prefix` is a Lean keyword); `routes` keeps
the (method, full path) pairs appended by `add` — the route's stored handler
name and the router trie live outside the given sources. -/
structure EchoM where
  pfx : String
  middleware : List MiddlewareF
  debug : Bool
  httpErrorHandler : ErrHandlerF
  hook : Option HookF
  routes : List (String × String)

/-- Embeds the segment loop of Go `path.Clean`: empty and `"."` segments are
dropped; `".."` pops the previous output segment, is dropped at the root of
a rooted path, and is kept when a relative path has nothing left to pop.
`acc` holds the output segments in reverse. -/
def cleanSegs (rooted : Bool) : List String → List String → List String
  | acc, [] => acc.reverse
  | acc, s :: rest =>
    if s = "" || s = "." then cleanSegs rooted acc rest
    else if s = ".." then
      match acc with
      | [] => if rooted then cleanSegs rooted [] rest
              else cleanSegs rooted [".."] rest
      | a :: as =>
        if a = ".." then cleanSegs rooted (".." :: a :: as) rest
        else cleanSegs rooted as rest
    else cleanSegs rooted (s :: acc) rest

/-- Embeds Go `path.Clean` (used by `path.Join` at echo.go lines 417 and
534) by its segment semantics. -/
def pathClean (p : String) : String :=
  if p = "" then "."
  else
    let rooted := p.startsWith "/"
    let out := cleanSegs rooted [] (p.splitOn "/")
    if rooted then "/" ++ String.intercalate "/" out
    else if out = [] then "." else String.intercalate "/" out

/-- Embeds Go `path.Join`: join the elements from the first non-empty one
with slashes, then `Clean`; all-empty input yields the empty string. -/
def pathJoin (elems : List String) : String :=
  match elems.dropWhile (fun s => s = "") with
  | [] => ""
  | l => pathClean (String.intercalate "/" l)

/-- Embeds `Echo.Use` (echo.go lines 327-331): the loop wraps each
middleware by `wrapMiddleware` and appends it, in order; `none` models the
panic on an unknown shape, so registration fails fast. -/
def EchoM.use (e : EchoM) : List Middleware → Option EchoM
  | [] => some e
  | m :: ms => (wrapMiddleware m).bind fun f =>
      EchoM.use { e with middleware := e.middleware ++ [f] } ms

/-- Embeds `Echo.add` (echo.go lines 416-428): the full path is
`path.Join(e.prefix, "/", path)`, the handler is wrapped by `wrapHandler` at
registration time (`none` models the panic on an unknown shape), and the
route list is appended.  `router.Add` itself lives in router.go, outside the
given sources, so only the route-list effect is kept. -/
def EchoM.add (e : EchoM) (method path : String) (h : Handler) : Option EchoM :=
  let p := pathJoin [e.pfx, "/", path]
  (wrapHandler h).map (fun _hf => { e with routes := e.routes ++ [(method, p)] })

/-- `Group` wraps a copied `Echo` (echo.go line 533). -/
structure GroupM where
  echo : EchoM

/-- Modelled from the spec: `Group.Use` lives in group.go, which is not
among the sources.  Spec §3/§4: group-scoped middleware is appended to the
group's own chain; it forwards to the embedded Echo's `Use`. -/
def GroupM.use (g : GroupM) (ms : List Middleware) : Option GroupM :=
  (g.echo.use ms).map GroupM.mk

/-- Embeds `Echo.Group` (echo.go lines 532-540): `g := &Group{*e}` copies
the parent struct; the copy's prefix becomes `path.Join("/", e.prefix,
prefix)`; `make`+`copy` replace the copied middleware slice by a fresh one
so later appends never write into the parent's backing array; then
`g.Use(m...)`.  The second component is the parent after the call — the Go
code mutates only the copy, so it is the parent unchanged. -/
def EchoM.group (e : EchoM) (pre : String) (ms : List Middleware) :
    Option GroupM × EchoM :=
  let g0 : EchoM := { e with pfx := pathJoin ["/", e.pfx, pre] }
  ((g0.use ms).map GroupM.mk, e)

/-- Embeds the middleware-chaining loop of `ServeHTTP` (echo.go lines
596-599): `for i := len(e.middleware) - 1; i >= 0; i-- { h =
e.middleware[i](h) }`. -/
def chainMiddleware (mw : List MiddlewareF) (h : HandlerF) : HandlerF :=
  mw.reverse.foldl (fun acc m => m acc) h

/-- Observable steps of one `ServeHTTP` run, recorded in execution order. -/
inductive Event where
  | hookCall
  | poolGet
  | findCall (method : String) (path : String)
  | resetCall
  | chainExec
  | errorHandlerCall (err : ErrM)
  | poolPut
deriving DecidableEq

/-- The shape of `Router.Find` (router.go is not among the sources, so it is
an abstract parameter): `Find(method, path string, ctx *Context) (HandlerFunc,
*Echo)` — it may populate the context's parameters and returns the handler
together with the echo whose middleware/error handler apply (note the Go
shadowing `h, e := e.router.Find(...)` at echo.go line 593). -/
abbrev FindT := String → String → ContextM → HandlerF × EchoM × ContextM

/-- A context as `pool.New` builds it (echo.go lines 233-235:
`NewContext(nil, new(Response), e)`; `NewContext` lives in context.go,
outside the sources — modelled from the spec: fresh request/response and an
empty parameter sequence). -/
def freshContext : ContextM :=
  { request := { method := "", path := "" }
    response := { committed := false, status := 0, body := [] }
    pvalues := [] }

/-- Embeds `e.pool.Get()` over an explicit pool: take a pooled context if
there is one, otherwise allocate fresh via `pool.New` (an empty pool never
blocks). -/
def poolGet : List ContextM → ContextM × List ContextM
  | [] => (freshContext, [])
  | c :: rest => (c, rest)

/-- Embeds `if e.hook != nil { e.hook(w, r) }` (echo.go lines 585-587); the
third component is the recorded event list. -/
def applyHook : Option HookF → Response → Request → Response × Request × List Event
  | none, w, r => (w, r, [])
  | some hk, w, r => ((hk w r).1, (hk w r).2, [Event.hookCall])

/-- Embeds `strings.TrimRight(p, "/")`: remove every trailing `/`. -/
def trimRightSlash (s : String) : String :=
  ⟨(s.data.reverse.dropWhile (fun c => c == '/')).reverse⟩

/-- Embeds echo.go lines 588-590: `if r.URL.Path != "/" { r.URL.Path =
strings.TrimRight(r.URL.Path, "/") }`. -/
def normalizePath (p : String) : String :=
  if p = "/" then p else trimRightSlash p

/-- Modelled from the spec: `Context.reset` lives in context.go, which is
not among the sources.  Spec §3: "reset(request, response) clears
params/paramCount and rebinds request/response at the start of each
request."  The `*Echo` argument passed at the call site rebinds the
context's echo back-reference, which this model does not store. -/
def ContextM.reset (c : ContextM) (r : Request) (w : Response) : ContextM :=
  { c with request := r, response := w, pvalues := [] }

/-- Embeds echo.go lines 602-604: `if err := h(c); err != nil {
e.httpErrorHandler(err, c) }`.  Input: the chain's result; output: final
context, logged errors, recorded events, and the (error, context) arguments
of the error-handler invocation, if any. -/
def errStep (e2 : EchoM) :
    ContextM × Option ErrM →
    ContextM × List ErrM × List Event × List (ErrM × ContextM)
  | (c3, some err) =>
    ((e2.httpErrorHandler err c3).1, (e2.httpErrorHandler err c3).2,
     [Event.errorHandlerCall err], [(err, c3)])
  | (c3, none) => (c3, [], [], [])

/-- Everything one `ServeHTTP` run produces or does, observably: the pool
after `Put`, the context that was released, the ordered event trace, the
(error, context) arguments of error-handler invocations, the composed
handler that was executed, the raw result of the composed chain, and the
logged errors. -/
structure ServeResult where
  pool : List ContextM
  ctx : ContextM
  events : List Event
  errCalls : List (ErrM × ContextM)
  composed : HandlerF
  chainResult : ContextM × Option ErrM
  log : List ErrM

/-- Embeds `Echo.ServeHTTP` (echo.go lines 584-607), line by line: run the
hook; normalize the path; get a context from the pool; `h, e :=
e.router.Find(r.Method, r.URL.Path, c)` (the local `e` is shadowed — the
echo returned by `Find` supplies middleware, error handler and pool from
here on); `c.reset(r, w, e)`; chain the middleware; execute; on a non-nil
error call the error handler; `e.pool.Put(c)`.  `find` stands for
`e.router.Find` (router.go is outside the sources). -/
def serveHTTP (e : EchoM) (find : FindT) (pool0 : List ContextM)
    (w0 : Response) (r0 : Request) : ServeResult :=
  let hk := applyHook e.hook w0 r0
  let w := hk.1
  let r1 := hk.2.1
  let ev0 := hk.2.2
  let p := normalizePath r1.path
  let g := poolGet pool0
  let c0 := g.1
  let pool1 := g.2
  let f := find r1.method p c0
  let h := f.1
  let e2 := f.2.1
  let c1 := f.2.2
  let c2 := ContextM.reset c1 { r1 with path := p } w
  let hh := chainMiddleware e2.middleware h
  let cr := hh c2
  let s := errStep e2 cr
  { pool := pool1 ++ [s.1]
    ctx := s.1
    events := ev0 ++ [Event.poolGet, Event.findCall r1.method p,
                      Event.resetCall, Event.chainExec] ++ s.2.2.1 ++ [Event.poolPut]
    errCalls := s.2.2.2
    composed := hh
    chainResult := cr
    log := s.2.1 }

/-- Projects an event to the arguments of a `Router.Find` call, if it is one. -/
def Event.findArgs : Event → Option (String × String)
  | .findCall m p => some (m, p)
  | _ => none

/-- The (method, path) arguments of the `Router.Find` calls a run made. -/
def ServeResult.findCalls (s : ServeResult) : List (String × String) :=
  s.events.filterMap Event.findArgs

/-- Wrapping a list of middlewares in order, as the loop body of `Use` does
one by one; `none` as soon as one shape is unknown. -/
def wrapAll : List Middleware → Option (List MiddlewareF)
  | [] => some []
  | m :: ms => (wrapMiddleware m).bind fun f => (wrapAll ms).map fun fs => f :: fs

/-- Probe middleware used to observe execution order: it records entering
as `"+i"` before invoking the rest of the chain and leaving as `"-i"`
afterwards, in the response body. -/
def obsMW (i : Nat) : MiddlewareF := fun next c =>
  let c1 := { c with response :=
    { c.response with body := c.response.body ++ ["+" ++ toString i] } }
  let r := next c1
  ({ r.1 with response :=
    { r.1.response with body := r.1.response.body ++ ["-" ++ toString i] } }, r.2)

/-- Probe handler used to observe execution order: it records its own
execution as `"H"` in the response body. -/
def obsHandler : HandlerF := fun c =>
  ({ c with response := { c.response with body := c.response.body ++ ["H"] } }, none)

theorem chainMiddleware_foldr (mw : List MiddlewareF) (h : HandlerF) :
    chainMiddleware mw h = mw.foldr (fun m k => m k) h :=
  List.foldl_reverse mw (fun acc m => m acc) h

theorem chainMiddleware_cons (m : MiddlewareF) (mw : List MiddlewareF) (h : HandlerF) :
    chainMiddleware (m :: mw) h = m (chainMiddleware mw h) := by
  simp [chainMiddleware_foldr]

theorem EchoM.use_eq_wrapAll (ms : List Middleware) :
    ∀ e : EchoM, e.use ms = (wrapAll ms).map
      (fun fs => { e with middleware := e.middleware ++ fs }) := by
  induction ms with
  | nil => intro e; simp [EchoM.use, wrapAll]
  | cons m ms ih =>
    intro e
    cases hw : wrapMiddleware m with
    | none => simp [EchoM.use, hw, wrapAll]
    | some f =>
      have h2 := ih { e with middleware := e.middleware ++ [f] }
      cases hws : wrapAll ms with
      | none =>
        rw [hws, Option.map_none'] at h2
        simp [EchoM.use, hw, wrapAll, hws, h2]
      | some fs =>
        rw [hws, Option.map_some'] at h2
        simp [EchoM.use, hw, wrapAll, hws, h2, List.append_assoc]

theorem wrapAll_none_of_unknown {ms : List Middleware}
    (h : Middleware.unknown ∈ ms) : wrapAll ms = none := by
  induction ms with
  | nil => cases h
  | cons m ms ih =>
    rcases List.mem_cons.1 h with h1 | h2
    · subst h1; rfl
    · cases hw : wrapMiddleware m with
      | none => simp [wrapAll, hw]
      | some f => simp [wrapAll, hw, ih h2]

theorem errStep_errCalls (e2 : EchoM) (pr : ContextM × Option ErrM) :
    (errStep e2 pr).2.2.2 =
      match pr.2 with
      | some err => [(err, pr.1)]
      | none => [] := by
  obtain ⟨c, eo⟩ := pr
  cases eo <;> rfl

theorem errStep_events_eq_map (e2 : EchoM) (pr : ContextM × Option ErrM) :
    (errStep e2 pr).2.2.1 =
      (errStep e2 pr).2.2.2.map (fun q => Event.errorHandlerCall q.1) := by
  obtain ⟨c, eo⟩ := pr
  cases eo <;> rfl

theorem serveHTTP_events_shape (e : EchoM) (find : FindT) (pool : List ContextM)
    (w : Response) (r : Request) :
    (serveHTTP e find pool w r).events
      = (applyHook e.hook w r).2.2
        ++ [Event.poolGet,
            Event.findCall (applyHook e.hook w r).2.1.method
              (normalizePath (applyHook e.hook w r).2.1.path),
            Event.resetCall, Event.chainExec]
        ++ (serveHTTP e find pool w r).errCalls.map
            (fun q => Event.errorHandlerCall q.1)
        ++ [Event.poolPut] := by
  simp only [serveHTTP]
  rw [errStep_events_eq_map]

theorem obsChain_body (is : List Nat) : ∀ c : ContextM,
    ((chainMiddleware (is.map obsMW) obsHandler) c).1.response.body
      = c.response.body ++ is.map (fun i => "+" ++ toString i) ++ ["H"]
        ++ (is.map (fun i => "-" ++ toString i)).reverse := by
  induction is with
  | nil => intro c; simp [chainMiddleware, obsHandler]
  | cons i is ih =>
    intro c
    rw [List.map_cons, chainMiddleware_cons]
    simp only [obsMW]
    rw [ih]
    simp [List.append_assoc]

theorem head?_dropWhile_false {α : Type} (p : α → Bool) :
    ∀ (l : List α) (a : α), (l.dropWhile p).head? = some a → p a = false := by
  intro l
  induction l with
  | nil => intro a h; simp [List.dropWhile] at h
  | cons x xs ih =>
    intro a h
    rw [List.dropWhile_cons] at h
    by_cases hx : p x
    · rw [if_pos hx] at h; exact ih a h
    · rw [if_neg hx] at h
      simp only [List.head?_cons, Option.some.injEq] at h
      subst h
      exact Bool.not_eq_true _ ▸ eq_false_of_ne_true hx

theorem trimRightSlash_spec (s : String) :
    (∃ k, s.data = (trimRightSlash s).data ++ List.replicate k '/') ∧
    (trimRightSlash s).data.getLast? ≠ some '/' := by
  constructor
  · refine ⟨(s.data.reverse.takeWhile (fun c => c == '/')).length, ?_⟩
    have h1 : s.data.reverse.takeWhile (fun c => c == '/')
        ++ s.data.reverse.dropWhile (fun c => c == '/') = s.data.reverse :=
      List.takeWhile_append_dropWhile _ _
    have h3 : (s.data.reverse.takeWhile (fun c => c == '/')).reverse
        = List.replicate (s.data.reverse.takeWhile (fun c => c == '/')).length '/' := by
      refine List.eq_replicate_iff.2 ⟨by simp, ?_⟩
      intro b hb
      have hmem := List.mem_reverse.1 hb
      have := List.mem_takeWhile_imp hmem
      exact eq_of_beq this
    calc s.data = s.data.reverse.reverse := (List.reverse_reverse _).symm
    _ = (s.data.reverse.takeWhile (fun c => c == '/')
          ++ s.data.reverse.dropWhile (fun c => c == '/')).reverse := by rw [h1]
    _ = (s.data.reverse.dropWhile (fun c => c == '/')).reverse
          ++ (s.data.reverse.takeWhile (fun c => c == '/')).reverse := by
          rw [List.reverse_append]
    _ = (trimRightSlash s).data
          ++ List.replicate (s.data.reverse.takeWhile (fun c => c == '/')).length '/' := by
          rw [h3]; rfl
  · intro hlast
    have heq : (trimRightSlash s).data.getLast?
        = (s.data.reverse.dropWhile (fun c => c == '/')).head? := by
      show ((s.data.reverse.dropWhile (fun c => c == '/')).reverse).getLast?
        = (s.data.reverse.dropWhile (fun c => c == '/')).head?
      rw [List.getLast?_reverse]
    rw [heq] at hlast
    have := head?_dropWhile_false (fun c => c == '/') _ _ hlast
    simp at this

theorem hookEvents_no_find (o : Option HookF) (w : Response) (r : Request) :
    ((applyHook o w r).2.2).filterMap Event.findArgs = [] := by
  cases o <;> rfl

theorem errEvents_no_find (l : List (ErrM × ContextM)) :
    (l.map (fun q => Event.errorHandlerCall q.1)).filterMap Event.findArgs = [] := by
  induction l with
  | nil => rfl
  | cons x xs ih => simp [Event.findArgs, ih]

theorem serveHTTP_findCalls (e : EchoM) (find : FindT) (pool : List ContextM)
    (w : Response) (r : Request) :
    (serveHTTP e find pool w r).findCalls
      = [((applyHook e.hook w r).2.1.method,
          normalizePath (applyHook e.hook w r).2.1.path)] := by
  unfold ServeResult.findCalls
  rw [serveHTTP_events_shape]
  simp [List.filterMap_append, hookEvents_no_find, errEvents_no_find, Event.findArgs]

/-- Identity middleware, a fixture for concrete runs. -/
def mwId : MiddlewareF := fun k => k

/-- A handler that succeeds without touching the context, a fixture. -/
def handlerOkW : HandlerF := fun c => (c, none)

/-- A concrete echo instance as `New` initializes the fields the model
keeps: no prefix, no middleware, debug off, the default error handler, no
hook, no routes. -/
def echoW : EchoM :=
  { pfx := "", middleware := [], debug := false
    httpErrorHandler := defaultHTTPErrorHandler false
    hook := none, routes := [] }

/-- A concrete `Router.Find` fixture resolving every request to
`handlerOkW` on `echoW`. -/
def findW : FindT := fun _ _ c => (handlerOkW, echoW, c)

/-- A fresh response-writer fixture. -/
def respW : Response := { committed := false, status := 0, body := [] }

/-- A concrete request fixture. -/
def reqW : Request := { method := "GET", path := "/x" }

/-- A concrete context fixture. -/
def ctxW : ContextM := freshContext

/-- A handler fixture that fails with a generic error. -/
def fErrW : HandlerF := fun c => (c, some (ErrM.generic "boom"))

/-- A continuation fixture whose execution is observable in `pvalues`. -/
def nextSeenW : HandlerF := fun c => ({ c with pvalues := ["next"] }, none)

/-- C1: for middleware `m1, ..., mn` registered via `Echo.Use` in that order
and a handler `h` resolved by the router, `ServeHTTP` executes the composed
chain `m1 (m2 (... mn h ...))`: `Use` appends the wrapped middlewares in
registration order, the chaining loop folds them so the first-registered one
is the outermost wrapper, and on a chain of probes the execution trace shows
each middleware entering in registration order before the handler and
leaving in reverse order after it. -/
theorem serveHTTP_middleware_registration_order
    (e e2 e0 : EchoM) (h : HandlerF) (pool : List ContextM)
    (w : Response) (r : Request) (ms : List Middleware) (fs : List MiddlewareF)
    (hwrap : wrapAll ms = some fs) (hmw : e0.middleware = []) :
    EchoM.use e0 ms = some { e0 with middleware := fs } ∧
    (serveHTTP e (fun _ _ c => (h, e2, c)) pool w r).composed
      = List.foldr (fun m k => m k) h e2.middleware ∧
    (∀ mw hh, chainMiddleware mw hh = List.foldr (fun m k => m k) hh mw) ∧
    (∀ m mw hh, chainMiddleware (m :: mw) hh = m (chainMiddleware mw hh)) ∧
    (∀ (is : List Nat) (c : ContextM),
      ((chainMiddleware (is.map obsMW) obsHandler) c).1.response.body
      = c.response.body ++ is.map (fun i => "+" ++ toString i) ++ ["H"]
        ++ (is.map (fun i => "-" ++ toString i)).reverse) := by
  refine ⟨?_, ?_, chainMiddleware_foldr, chainMiddleware_cons, obsChain_body⟩
  · rw [EchoM.use_eq_wrapAll, hwrap, Option.map_some']
    simp [hmw]
  · simp only [serveHTTP]
    exact chainMiddleware_foldr e2.middleware h

theorem serveHTTP_middleware_registration_order_witness :
    EchoM.use echoW [Middleware.middlewareFunc mwId]
      = some { echoW with middleware := [mwId] } :=
  (serveHTTP_middleware_registration_order echoW echoW echoW handlerOkW []
    respW reqW [Middleware.middlewareFunc mwId] [mwId] rfl rfl).1

/-- C2: on every request, if the composed chain returns a non-nil error,
`ServeHTTP` invokes the registered HTTP error handler exactly once, passing
that error and the request's context; if the chain returns nil, the error
handler is not invoked at all. -/
theorem serveHTTP_error_handler_exactly_once (e : EchoM) (find : FindT)
    (pool : List ContextM) (w : Response) (r : Request) :
    (serveHTTP e find pool w r).errCalls
      = match (serveHTTP e find pool w r).chainResult.2 with
        | some err => [(err, (serveHTTP e find pool w r).chainResult.1)]
        | none => [] := by
  simp only [serveHTTP]
  exact errStep_errCalls _ _

/-- C7: on every request — whether the chain returned nil or an error that
was routed to the error handler — `ServeHTTP` returns the context to the
pool unconditionally before returning control: the released context is
appended to the pool and the pool release is the last recorded step. -/
theorem serveHTTP_releases_context_unconditionally (e : EchoM) (find : FindT)
    (pool : List ContextM) (w : Response) (r : Request) :
    (serveHTTP e find pool w r).pool
      = (poolGet pool).2 ++ [(serveHTTP e find pool w r).ctx] ∧
    (serveHTTP e find pool w r).events.getLast? = some Event.poolPut := by
  constructor
  · simp only [serveHTTP]
  · simp only [serveHTTP]
    exact List.getLast?_concat _

/-- C5: `ServeHTTP` normalizes the URL path before lookup — `Router.Find`
is called with the normalized path; the root path `"/"` is never trimmed;
and for every other path the normalization removes exactly the trailing
slashes: the original path is the normalized path followed by some run of
`'/'` characters, and the normalized path has no trailing slash. -/
theorem serveHTTP_normalizes_path_before_find (e : EchoM) (find : FindT)
    (pool : List ContextM) (w : Response) (r : Request) :
    (serveHTTP e find pool w r).findCalls
      = [((applyHook e.hook w r).2.1.method,
          normalizePath (applyHook e.hook w r).2.1.path)] ∧
    normalizePath "/" = "/" ∧
    (∀ p : String, p ≠ "/" →
      (∃ k, p.data = (normalizePath p).data ++ List.replicate k '/') ∧
      (normalizePath p).data.getLast? ≠ some '/') := by
  refine ⟨serveHTTP_findCalls e find pool w r, rfl, ?_⟩
  intro p hp
  rw [normalizePath, if_neg hp]
  exact trimRightSlash_spec p

theorem serveHTTP_normalizes_path_before_find_witness :
    (∃ k, ("/a//" : String).data
        = (normalizePath "/a//").data ++ List.replicate k '/') ∧
    (normalizePath "/a//").data.getLast? ≠ some '/' :=
  (serveHTTP_normalizes_path_before_find echoW findW [] respW reqW).2.2
    "/a//" (by decide)

/-- C6 counterexample: on a concrete run the recorded trace shows the
`Router.Find` call (which populates the pooled context) happening before
`c.reset`, not after it: the trace is pool-get, find, reset, chain, pool-put,
and the reset step does not precede the lookup step. -/
theorem serveHTTP_reset_before_find_cex :
    (serveHTTP echoW findW [] respW reqW).events
      = [Event.poolGet, Event.findCall "GET" "/x", Event.resetCall,
         Event.chainExec, Event.poolPut] ∧
    ¬ ((serveHTTP echoW findW [] respW reqW).events.indexOf Event.resetCall
        < (serveHTTP echoW findW [] respW reqW).events.indexOf
            (Event.findCall "GET" "/x")) := by
  constructor
  · decide
  · decide

/-- C6 (amended): in the dispatch pipeline the context is acquired from the
pool before `Router.Find` is called, but `c.reset` with the live
request/response pair runs after the lookup, not before it: every trace is
hook events, then pool-get, then the find call, then reset, then chain
execution. -/
theorem serveHTTP_acquire_find_then_reset (e : EchoM) (find : FindT)
    (pool : List ContextM) (w : Response) (r : Request) :
    ∃ tl, (serveHTTP e find pool w r).events
      = (applyHook e.hook w r).2.2
        ++ [Event.poolGet,
            Event.findCall (applyHook e.hook w r).2.1.method
              (normalizePath (applyHook e.hook w r).2.1.path),
            Event.resetCall, Event.chainExec] ++ tl :=
  ⟨(serveHTTP e find pool w r).errCalls.map (fun q => Event.errorHandlerCall q.1)
      ++ [Event.poolPut],
   by rw [serveHTTP_events_shape]; simp [List.append_assoc]⟩

/-- C3: the default HTTP error handler logs the error in every case; when
the response is not yet committed it writes, for a `*HTTPError`, that
error's stored status code and message, and otherwise status 500 with the
generic status text; with debug mode on, the message written is the
underlying `err.Error()` text instead of the generic message. -/
theorem defaultHTTPErrorHandler_spec (debug : Bool) (err : ErrM) (c : ContextM) :
    ((defaultHTTPErrorHandler debug err c).2 = [err]) ∧
    (c.response.committed = false →
      (∀ code m, err = ErrM.httpError code m →
        (defaultHTTPErrorHandler debug err c).1.response.status = code ∧
        (defaultHTTPErrorHandler debug err c).1.response.body
          = c.response.body ++ [m ++ "\n"]) ∧
      (∀ t, err = ErrM.generic t →
        (defaultHTTPErrorHandler debug err c).1.response.status = 500 ∧
        (defaultHTTPErrorHandler debug err c).1.response.body
          = c.response.body ++ [(if debug then t else statusText 500) ++ "\n"]) ∧
      (debug = true →
        (defaultHTTPErrorHandler debug err c).1.response.body
          = c.response.body ++ [err.errorText ++ "\n"])) := by
  refine ⟨rfl, ?_⟩
  intro hc
  refine ⟨?_, ?_, ?_⟩
  · intro code m he
    subst he
    cases debug <;>
      simp [defaultHTTPErrorHandler, httpErrorWrite, ErrM.errorText, hc]
  · intro t he
    subst he
    cases debug <;>
      simp [defaultHTTPErrorHandler, httpErrorWrite, ErrM.errorText, hc]
  · intro hd
    subst hd
    cases err <;>
      simp [defaultHTTPErrorHandler, httpErrorWrite, ErrM.errorText, hc]

theorem defaultHTTPErrorHandler_spec_witness :
    (defaultHTTPErrorHandler false (ErrM.generic "boom") ctxW).2
        = [ErrM.generic "boom"] ∧
    (defaultHTTPErrorHandler false (ErrM.generic "boom") ctxW).1.response.status
        = 500 ∧
    (defaultHTTPErrorHandler false (ErrM.generic "boom") ctxW).1.response.body
        = ctxW.response.body ++ [(if false then "boom" else statusText 500) ++ "\n"] := by
  have h := defaultHTTPErrorHandler_spec false (ErrM.generic "boom") ctxW
  exact ⟨h.1, ((h.2 rfl).2.1 "boom" rfl).1, ((h.2 rfl).2.1 "boom" rfl).2⟩

/-- C4: when the response is already committed, the default HTTP error
handler leaves the context (in particular the response) unchanged and only
logs the error — a committed response is never written a second time. -/
theorem defaultHTTPErrorHandler_committed_frame (debug : Bool) (err : ErrM)
    (c : ContextM) (h : c.response.committed = true) :
    (defaultHTTPErrorHandler debug err c).1 = c ∧
    (defaultHTTPErrorHandler debug err c).2 = [err] := by
  constructor
  · simp [defaultHTTPErrorHandler, h]
  · rfl

theorem defaultHTTPErrorHandler_committed_frame_witness :
    (defaultHTTPErrorHandler true (ErrM.httpError 404 "Not Found")
        { ctxW with response := { ctxW.response with committed := true } }).1
      = { ctxW with response := { ctxW.response with committed := true } } :=
  (defaultHTTPErrorHandler_committed_frame true (ErrM.httpError 404 "Not Found")
    { ctxW with response := { ctxW.response with committed := true } } rfl).1

/-- C8: `wrapMiddleware` and `wrapHandler` reject exactly the shapes outside
the closed set of accepted variants — rejection (the Go panic) happens at
registration, when `Use` or `add` runs, never at request time — and every
accepted shape is converted right there into the canonical
`MiddlewareFunc` / `HandlerFunc` signature. -/
theorem wrap_shapes_fail_fast (m : Middleware) (h : Handler) (e : EchoM)
    (ms : List Middleware) (method path : String) :
    (wrapMiddleware m = none ↔ m = Middleware.unknown) ∧
    (wrapHandler h = none ↔ h = Handler.unknown) ∧
    (m ≠ Middleware.unknown → ∃ f, wrapMiddleware m = some f) ∧
    (h ≠ Handler.unknown → ∃ hf, wrapHandler h = some hf) ∧
    (Middleware.unknown ∈ ms → EchoM.use e ms = none) ∧
    (EchoM.add e method path Handler.unknown = none) := by
  refine ⟨?_, ?_, ?_, ?_, ?_, rfl⟩
  · cases m <;> simp [wrapMiddleware]
  · cases h <;> simp [wrapHandler]
  · intro hm
    cases m <;> simp [wrapMiddleware] at hm ⊢
  · intro hh
    cases h <;> simp [wrapHandler] at hh ⊢
  · intro hmem
    rw [EchoM.use_eq_wrapAll, wrapAll_none_of_unknown hmem]
    rfl

theorem wrap_shapes_fail_fast_witness :
    EchoM.use echoW [Middleware.unknown] = none ∧
    EchoM.add echoW "GET" "/x" Handler.unknown = none ∧
    (∃ f, wrapMiddleware (Middleware.handlerFunc handlerOkW) = some f) := by
  have h := wrap_shapes_fail_fast (Middleware.handlerFunc handlerOkW)
    Handler.unknown echoW [Middleware.unknown] "GET" "/x"
  exact ⟨h.2.2.2.2.1 (List.mem_cons_self _ _), h.2.2.2.2.2,
    h.2.2.1 (fun hx => Middleware.noConfusion hx)⟩

/-- C9: a plain handler function registered as middleware (either as
`HandlerFunc` or as `func(*Context) error`) is wrapped into a middleware
that runs it before the next handler: a non-nil error short-circuits —
the result is that error for every possible next handler, which therefore
is never invoked — and on nil the next handler's result on the updated
context is returned. -/
theorem wrapHandlerFuncMW_runs_before_next (f : HandlerF) (next : HandlerF)
    (c c' : ContextM) :
    wrapMiddleware (Middleware.handlerFunc f) = some (wrapHandlerFuncMW f) ∧
    wrapMiddleware (Middleware.funcCtxErr f) = some (wrapHandlerFuncMW f) ∧
    (∀ err, f c = (c', some err) → wrapHandlerFuncMW f next c = (c', some err)) ∧
    (f c = (c', none) → wrapHandlerFuncMW f next c = next c') := by
  refine ⟨rfl, rfl, ?_, ?_⟩
  · intro err hf
    simp [wrapHandlerFuncMW, hf]
  · intro hf
    simp [wrapHandlerFuncMW, hf]

theorem wrapHandlerFuncMW_runs_before_next_witness :
    wrapHandlerFuncMW fErrW nextSeenW ctxW = (ctxW, some (ErrM.generic "boom")) ∧
    wrapHandlerFuncMW handlerOkW nextSeenW ctxW = nextSeenW ctxW := by
  have h1 := wrapHandlerFuncMW_runs_before_next fErrW nextSeenW ctxW ctxW
  have h2 := wrapHandlerFuncMW_runs_before_next handlerOkW nextSeenW ctxW ctxW
  exact ⟨h1.2.2.1 (ErrM.generic "boom") rfl, h2.2.2.2 rfl⟩

/-- C10: `Echo.Group` gives the new group its own copy of the parent's
middleware at creation time and does not mutate the parent: after `Group`
returns, the parent's middleware list and prefix are unchanged, the group's
middleware is the parent's list plus the wrapped middlewares passed to
`Group`, and middleware later added through the group's `Use` is appended
only to the group's copy while the parent's list stays what it was. -/
theorem group_copies_parent_middleware (e : EchoM) (pre : String)
    (ms ms' : List Middleware) (fs fs' : List MiddlewareF)
    (hw : wrapAll ms = some fs) (hw' : wrapAll ms' = some fs') :
    (e.group pre ms).2 = e ∧
    (e.group pre ms).2.middleware = e.middleware ∧
    (e.group pre ms).2.pfx = e.pfx ∧
    (∀ g, (e.group pre ms).1 = some g →
      g.echo.middleware = e.middleware ++ fs ∧
      (∀ g', GroupM.use g ms' = some g' →
        g'.echo.middleware = e.middleware ++ fs ++ fs')) := by
  refine ⟨rfl, rfl, rfl, ?_⟩
  intro g hg
  have h1 : (e.group pre ms).1
      = some ⟨{ e with pfx := pathJoin ["/", e.pfx, pre]
                       middleware := e.middleware ++ fs }⟩ := by
    simp [EchoM.group, EchoM.use_eq_wrapAll, hw]
  rw [h1, Option.some.injEq] at hg
  subst hg
  refine ⟨rfl, ?_⟩
  intro g' hg'
  have h2 : GroupM.use
      (⟨{ e with pfx := pathJoin ["/", e.pfx, pre]
                 middleware := e.middleware ++ fs }⟩ : GroupM) ms'
      = some ⟨{ e with pfx := pathJoin ["/", e.pfx, pre]
                       middleware := e.middleware ++ fs ++ fs' }⟩ := by
    simp [GroupM.use, EchoM.use_eq_wrapAll, hw']
  rw [h2, Option.some.injEq] at hg'
  subst hg'
  rfl

theorem group_copies_parent_middleware_witness :
    (echoW.group "api" [Middleware.middlewareFunc mwId]).2 = echoW ∧
    ∃ g, (echoW.group "api" [Middleware.middlewareFunc mwId]).1 = some g ∧
      g.echo.middleware = echoW.middleware ++ [mwId] := by
  have h := group_copies_parent_middleware echoW "api"
    [Middleware.middlewareFunc mwId] [Middleware.handlerFunc handlerOkW]
    [mwId] [wrapHandlerFuncMW handlerOkW] rfl rfl
  refine ⟨h.1,
    ⟨⟨{ echoW with pfx := pathJoin ["/", echoW.pfx, "api"]
                   middleware := echoW.middleware ++ [mwId] }⟩, rfl, ?_⟩⟩
  exact (h.2.2.2 _ rfl).1
